import Mathlib

/-!
Verification development for the `ppify` PP-estimation tool
(`src/main.rs`).  The embedding below translates the program's pure
computational core into Lean:

* the mod catalog `MODS_LAZER` and the bitmask resolution performed by
  `read_mods_for_mode` (lines 450-793 of the source);
* the judgement-input model `DetailedJudgements` and the two input
  readers `read_simple_score` / `read_detailed_judgements`
  (lines 13-41, 291-415);
* the builder mapping `apply_detailed_judgements` onto the external
  calculator's slots (lines 795-839);
* the weighted total-PP aggregation: `weighted_total_pp`
  (lines 875-881) together with the descending sort and the
  push-and-recompute gain logic of `main` (lines 129-141).

Rust `f64` PP values are modelled as exact rationals `ℚ`; the float
literal `0.95` of the source is the exact rational `19/20`, which the
`OfScientific` instance of `ℚ` produces for the literal `0.95`.  The
panic behaviour of `partial_cmp(..).unwrap()` on NaN is modelled
separately with `Flt := Option ℚ` (`none` = NaN) and an `Except`-valued
sort.  Machine integers (`u32` counters and mod bits) are modelled as
`Nat`; the only arithmetic performed on them by the embedded code is
bitwise `or` of values below `2 ^ 32`, which cannot overflow.
-/

/-- The four game modes of `rosu_v2::prelude::GameMode` as used by the
source (`Osu` is osu!standard). -/
inductive GameMode : Type where
  | Osu : GameMode
  | Taiko : GameMode
  | Catch : GameMode
  | Mania : GameMode
deriving DecidableEq, Repr

/-- `ModOptionDef` (source lines 417-422): one catalog entry with its
acronym, legacy bit pattern, description and applicable modes. -/
structure ModOptionDef : Type where
  acronym : String
  bits : Nat
  description : String
  modes : List GameMode
deriving DecidableEq, Repr

/-- The helper `const fn b(bit: u32) -> u32 { 1 << bit }`
(source lines 446-448); the reduction modulo `2 ^ 32` makes the `u32`
width explicit (every bit index used by the catalog is below 32, so the
reduction never truncates). -/
def b (bit : Nat) : Nat := (1 <<< bit) % 2 ^ 32

/-- The static mod catalog `MODS_LAZER` (source lines 450-766),
transcribed entry by entry in source order. -/
def MODS_LAZER : List ModOptionDef := [
  ⟨"EZ", b 1, "Easy", [.Osu, .Taiko, .Catch, .Mania]⟩,
  ⟨"NF", b 0, "No Fail", [.Osu, .Taiko, .Catch, .Mania]⟩,
  ⟨"HT", b 8, "Half Time", [.Osu, .Taiko, .Catch, .Mania]⟩,
  ⟨"DC", 0, "Daycore (lazer only, no PP effect here)",
    [.Osu, .Taiko, .Catch, .Mania]⟩,
  ⟨"NR", 0, "No Release (mania only, no PP effect here)", [.Mania]⟩,
  ⟨"HR", b 4, "Hard Rock", [.Osu, .Taiko, .Catch, .Mania]⟩,
  ⟨"SD", b 5, "Sudden Death", [.Osu, .Taiko, .Catch, .Mania]⟩,
  ⟨"PF", b 5 ||| b 14, "Perfect (full combo SD)",
    [.Osu, .Taiko, .Catch, .Mania]⟩,
  ⟨"DT", b 6, "Double Time", [.Osu, .Taiko, .Catch, .Mania]⟩,
  ⟨"NC", b 6 ||| b 9, "Nightcore (DT variant)",
    [.Osu, .Taiko, .Catch, .Mania]⟩,
  ⟨"HD", b 3, "Hidden", [.Osu, .Taiko, .Catch, .Mania]⟩,
  ⟨"FI", 0, "Fade In (mania only in stable)", [.Mania]⟩,
  ⟨"CO", 0, "Cover (lazer only, no PP effect here)",
    [.Osu, .Taiko, .Catch, .Mania]⟩,
  ⟨"FL", b 10, "Flashlight", [.Osu, .Catch, .Mania]⟩,
  ⟨"BL", 0, "Blinds (lazer fun mod, no PP effect here)",
    [.Osu, .Catch, .Mania]⟩,
  ⟨"ST", 0, "Strict Tracking (taiko only, no PP effect here)", [.Taiko]⟩,
  ⟨"AC", 0, "Accuracy Challenge (lazer only, no PP effect here)",
    [.Osu, .Taiko, .Catch, .Mania]⟩,
  ⟨"AT", b 7, "Autoplay (no PP)", [.Osu, .Taiko, .Catch, .Mania]⟩,
  ⟨"AP", b 9, "AutoPilot (osu!, no PP)", [.Osu]⟩,
  ⟨"CN", 0, "Cinema (no PP)", [.Osu, .Catch]⟩,
  ⟨"RL", 0, "Relax (no PP)", [.Osu, .Catch]⟩,
  ⟨"RX", 0, "Classic Relax acronym (no PP)", [.Osu, .Catch]⟩,
  ⟨"TD", 0, "Target Practice / Touch Device (no PP)", [.Osu]⟩,
  ⟨"SO", b 12, "Spun Out (osu! only)", [.Osu]⟩,
  ⟨"DA", 0, "Difficulty Adjust (lazer only, no PP here)",
    [.Osu, .Taiko, .Catch, .Mania]⟩,
  ⟨"TC", 0, "Traceable (lazer only)", [.Osu]⟩,
  ⟨"WI", 0, "Wiggle (lazer only)", [.Osu]⟩,
  ⟨"CL", 0, "Classic (lazer: emulate stable quirks)", [.Osu, .Taiko]⟩,
  ⟨"RD", 0, "Random (mania only, no PP)", [.Mania]⟩,
  ⟨"MR", 0, "Mirror (mania only, no PP)", [.Mania]⟩,
  ⟨"ATC", 0, "Adaptive Speed / Challenge (lazer system, no PP)",
    [.Osu, .Taiko, .Catch, .Mania]⟩,
  ⟨"1K", 0, "1 key (mania only, no legacy bit)", [.Mania]⟩,
  ⟨"2K", 0, "2 keys", [.Mania]⟩,
  ⟨"3K", 0, "3 keys", [.Mania]⟩,
  ⟨"4K", b 15, "4 keys", [.Mania]⟩,
  ⟨"5K", b 16, "5 keys", [.Mania]⟩,
  ⟨"6K", b 17, "6 keys", [.Mania]⟩,
  ⟨"7K", b 18, "7 keys", [.Mania]⟩,
  ⟨"8K", b 19, "8 keys", [.Mania]⟩,
  ⟨"9K", b 24, "9 keys", [.Mania]⟩]

/-- The computational core of `read_mods_for_mode` (source lines
768-793): the multiselect offers exactly the catalog entries whose
`modes` contain the active mode (line 777), the user's selection is a
subset of those entries (identified by their globally unique acronyms),
and the resulting bitmask is the bitwise `or` of the `bits` of the
selected entries starting from `0` (lines 787-790). -/
def read_mods_for_mode (mode : GameMode) (selected : List String) : Nat :=
  ((MODS_LAZER.filter (fun m => decide (mode ∈ m.modes))).filter
      (fun m => decide (m.acronym ∈ selected))).foldl
    (fun bits m => bits ||| m.bits) 0

/-- The spec's name (section 4.1) for the resolution performed by
`read_mods_for_mode`. -/
def resolveMods (mode : GameMode) (selected : List String) : Nat :=
  read_mods_for_mode mode selected

/-- The `DetailedJudgements` enum (source lines 13-41): mode-specific
exact judgement counts.  The `u32` fields are modelled as `Nat`. -/
inductive DetailedJudgements : Type where
  | Osu : (n300 n100 n50 misses : Nat) → DetailedJudgements
  | Taiko : (n300 n100 misses : Nat) → DetailedJudgements
  | Catch : (fruits droplets tiny_droplets tiny_droplet_misses misses : Nat) →
      DetailedJudgements
  | Mania : (n320 n300 n200 n100 n50 misses : Nat) → DetailedJudgements
deriving DecidableEq, Repr

/-- The game mode whose judgement categories a `DetailedJudgements`
value carries (its constructor's name). -/
def shapeOf : DetailedJudgements → GameMode
  | .Osu _ _ _ _ => .Osu
  | .Taiko _ _ _ => .Taiko
  | .Catch _ _ _ _ _ => .Catch
  | .Mania _ _ _ _ _ _ => .Mania

/-- The slots of the external calculator (`rosu_pp::Performance`) that
`apply_detailed_judgements` writes through the builder methods
`n_geki`, `n300`, `n_katu`, `n100`, `n50`, `misses`,
`large_tick_hits` and `small_tick_hits`.  The calculator is external
(spec section 6); its builder is modelled as a record of
optionally-set slots, in that field order. -/
structure Perf : Type where
  n_geki : Option Nat
  n300 : Option Nat
  n_katu : Option Nat
  n100 : Option Nat
  n50 : Option Nat
  misses : Option Nat
  large_tick_hits : Option Nat
  small_tick_hits : Option Nat
deriving DecidableEq, Repr

/-- The builder state before any judgement slot has been written. -/
def emptyPerf : Perf := ⟨none, none, none, none, none, none, none, none⟩

/-- Builder method `Performance::n_geki`. -/
def setNGeki (v : Nat) : Perf → Perf
  | ⟨_, a2, a3, a4, a5, a6, a7, a8⟩ => ⟨some v, a2, a3, a4, a5, a6, a7, a8⟩

/-- Builder method `Performance::n300`. -/
def setN300 (v : Nat) : Perf → Perf
  | ⟨a1, _, a3, a4, a5, a6, a7, a8⟩ => ⟨a1, some v, a3, a4, a5, a6, a7, a8⟩

/-- Builder method `Performance::n_katu`. -/
def setNKatu (v : Nat) : Perf → Perf
  | ⟨a1, a2, _, a4, a5, a6, a7, a8⟩ => ⟨a1, a2, some v, a4, a5, a6, a7, a8⟩

/-- Builder method `Performance::n100`. -/
def setN100 (v : Nat) : Perf → Perf
  | ⟨a1, a2, a3, _, a5, a6, a7, a8⟩ => ⟨a1, a2, a3, some v, a5, a6, a7, a8⟩

/-- Builder method `Performance::n50`. -/
def setN50 (v : Nat) : Perf → Perf
  | ⟨a1, a2, a3, a4, _, a6, a7, a8⟩ => ⟨a1, a2, a3, a4, some v, a6, a7, a8⟩

/-- Builder method `Performance::misses`. -/
def setMisses (v : Nat) : Perf → Perf
  | ⟨a1, a2, a3, a4, a5, _, a7, a8⟩ => ⟨a1, a2, a3, a4, a5, some v, a7, a8⟩

/-- Builder method `Performance::large_tick_hits`. -/
def setLargeTickHits (v : Nat) : Perf → Perf
  | ⟨a1, a2, a3, a4, a5, a6, _, a8⟩ => ⟨a1, a2, a3, a4, a5, a6, some v, a8⟩

/-- Builder method `Performance::small_tick_hits`. -/
def setSmallTickHits (v : Nat) : Perf → Perf
  | ⟨a1, a2, a3, a4, a5, a6, a7, _⟩ => ⟨a1, a2, a3, a4, a5, a6, a7, some v⟩

/-- `apply_detailed_judgements` (source lines 795-839): writes the
mode-specific judgement counts into the calculator slots, with the
chained builder calls applied left to right exactly as in the source. -/
def apply_detailed_judgements (perf : Perf) :
    DetailedJudgements → Perf
  | .Osu n300 n100 n50 misses =>
      setMisses misses (setN50 n50 (setN100 n100 (setN300 n300 perf)))
  | .Taiko n300 n100 misses =>
      setMisses misses (setN100 n100 (setN300 n300 perf))
  | .Catch fruits droplets tiny_droplets tiny_droplet_misses misses =>
      setMisses misses (setNKatu tiny_droplet_misses
        (setSmallTickHits tiny_droplets
          (setLargeTickHits droplets (setN300 fruits perf))))
  | .Mania n320 n300 n200 n100 n50 misses =>
      setMisses misses (setN50 n50 (setN100 n100
        (setNKatu n200 (setN300 n300 (setNGeki n320 perf)))))

/-- The `(accuracy, misses)` pair of the Simple input style
(source line 289); accuracy is a float, modelled as `ℚ`. -/
abbrev AccuracyAndMisses : Type := Option (ℚ × Nat)

/-- `read_simple_score` (source lines 291-310) with the interactive
prompts replaced by the already-parsed values they return: the
accuracy, the miss count and the optional combo.  It always produces
`(Some (accuracy, misses), combo, None)`. -/
def read_simple_score (accuracy : ℚ) (misses : Nat) (combo : Option Nat) :
    AccuracyAndMisses × Option Nat × Option DetailedJudgements :=
  (some (accuracy, misses), combo, none)

/-- `read_detailed_judgements` (source lines 312-415) with the
interactive `read_u32` prompts replaced by the list of successive
parsed answers (in prompt order) and the optional combo.  Each mode
branch consumes exactly the number of counts it prompts for; `none`
stands for an answer list whose length does not match the branch's
prompt sequence, which cannot occur in the interactive program. -/
def read_detailed_judgements (mode : GameMode) (answers : List Nat)
    (combo : Option Nat) :
    Option (AccuracyAndMisses × Option Nat × Option DetailedJudgements) :=
  match mode, answers with
  | .Osu, [n300, n100, n50, misses] =>
      some (none, combo, some (.Osu n300 n100 n50 misses))
  | .Taiko, [n300, n100, misses] =>
      some (none, combo, some (.Taiko n300 n100 misses))
  | .Catch, [fruits, droplets, tiny_droplets, tiny_droplet_misses, misses] =>
      some (none, combo,
        some (.Catch fruits droplets tiny_droplets tiny_droplet_misses misses))
  | .Mania, [n320, n300, n200, n100, n50, misses] =>
      some (none, combo, some (.Mania n320 n300 n200 n100 n50 misses))
  | _, _ => none

/-- `weighted_total_pp` (source lines 875-881): takes at most the first
100 entries of the given slice, weights the entry at index `i` by
`0.95 ^ i` and sums.  Note that this function does not sort; the caller
sorts first (source lines 135 and 139). -/
def weighted_total_pp (pps : List ℚ) : ℚ :=
  (((pps.take 100).enum).map (fun p => p.2 * (0.95 : ℚ) ^ p.1)).sum

/-- The descending sort performed by
`current_pps.sort_by(|a, b| b.partial_cmp(a).unwrap())`
(source lines 135 and 139) on NaN-free values.  Rust's stable sort and
this insertion sort both return a permutation of the input sorted under
`≥`, and over `ℚ` any two such lists are equal
(`List.eq_of_perm_of_sorted`), so the model is exact. -/
def sortDesc (l : List ℚ) : List ℚ :=
  List.insertionSort (fun a c => a ≥ c) l

/-- The aggregation pipeline of `main` (sort descending, then
`weighted_total_pp`; source lines 135-136 and 139-140).  This is the
`weightedTotal` contract of spec section 4.4, whose first step is the
descending sort. -/
def weightedTotal (pps : List ℚ) : ℚ :=
  weighted_total_pp (sortDesc pps)

/-- The projected PP gain computed by `main` (source lines 138-141):
push the new play's PP value, re-sort, recompute, subtract. -/
def gain (pps : List ℚ) (newPP : ℚ) : ℚ :=
  weightedTotal (pps ++ [newPP]) - weightedTotal pps

/-- Structural reformulation of the weighted sum: `W k l` is the sum of
the first at-most-`k` entries of `l`, the entry at index `i` weighted
by `0.95 ^ i`.  Bridged to `weighted_total_pp` by
`weighted_total_pp_eq_W`. -/
def W : Nat → List ℚ → ℚ
  | 0, _ => 0
  | _ + 1, [] => 0
  | k + 1, x :: t => x + (0.95 : ℚ) * W k t

/-- A possibly-NaN `f64` value: `none` is NaN, `some q` a numeric
value. -/
abbrev Flt : Type := Option ℚ

/-- `f64::partial_cmp`: `None` exactly when either operand is NaN. -/
def pcmp : Flt → Flt → Option Ordering
  | some a, some c => some (compare a c)
  | some _, none => none
  | none, _ => none

/-- Insertion of one element into an already sorted-descending prefix,
using the comparator `|a, b| b.partial_cmp(a).unwrap()` of source lines
135 and 139: a `None` comparison result makes `unwrap` panic, which is
modelled by `Except.error ()`. -/
def insertFlt (x : Flt) : List Flt → Except Unit (List Flt)
  | [] => .ok [x]
  | y :: ys =>
    match pcmp x y with
    | none => .error ()
    | some .gt => .ok (x :: y :: ys)
    | some _ => (insertFlt x ys).map (fun r => y :: r)

/-- Worker of `sortFlt`: inserts the remaining elements one by one into
the sorted accumulator, propagating the first panic. -/
def sortFltGo (acc : List Flt) : List Flt → Except Unit (List Flt)
  | [] => .ok acc
  | x :: xs =>
    match insertFlt x acc with
    | .error e => .error e
    | .ok acc2 => sortFltGo acc2 xs

/-- The descending sort of source lines 135 and 139 over possibly-NaN
values, with the panic of `partial_cmp(..).unwrap()` made explicit.
Rust's stable comparison sort and this insertion sort perform no
comparison on slices of length at most one and otherwise compare every
element at least once, so they panic in exactly the same cases: some
comparison sees a NaN, i.e. the slice has at least two elements and
contains a NaN. -/
def sortFlt (l : List Flt) : Except Unit (List Flt) :=
  sortFltGo [] l

/-- NaN-propagating `f64` multiplication. -/
def fmul : Flt → Flt → Flt
  | some a, some c => some (a * c)
  | _, _ => none

/-- NaN-propagating `f64` addition. -/
def fadd : Flt → Flt → Flt
  | some a, some c => some (a + c)
  | _, _ => none

/-- `weighted_total_pp` over possibly-NaN values (source lines
875-881): the same take / enumerate / weight / sum computation with
NaN-propagating float arithmetic (`0.95 ^ i` is never NaN).  It is a
total function: no operation in it can panic. -/
def weighted_total_pp_f (pps : List Flt) : Flt :=
  (((pps.take 100).enum).map
      (fun p => fmul p.2 (some ((0.95 : ℚ) ^ p.1)))).foldr fadd (some 0)

/-- The weighted sum over a take-prefix enumerated from `n` equals
`0.95 ^ n` times the structural sum `W`. -/
theorem sum_enumFrom_take (l : List ℚ) : ∀ (k n : Nat),
    (((l.take k).enumFrom n).map (fun p => p.2 * (0.95 : ℚ) ^ p.1)).sum =
      (0.95 : ℚ) ^ n * W k l := by
  induction l with
  | nil =>
    intro k n
    cases k <;> simp [W]
  | cons x t ih =>
    intro k n
    cases k with
    | zero => simp [W]
    | succ k =>
      simp only [List.take_succ_cons, List.enumFrom_cons, List.map_cons,
        List.sum_cons, ih k (n + 1), W]
      ring

/-- `weighted_total_pp` computes the structural weighted sum `W 100`. -/
theorem weighted_total_pp_eq_W (l : List ℚ) :
    weighted_total_pp l = W 100 l := by
  have h := sum_enumFrom_take l 100 0
  simpa [weighted_total_pp, List.enum_eq_enumFrom] using h

theorem W_nil (k : Nat) : W k [] = 0 := by cases k <;> rfl

theorem W_cons (k : Nat) (x : ℚ) (t : List ℚ) :
    W (k + 1) (x :: t) = x + (0.95 : ℚ) * W k t := rfl

/-- Appending a final `0` never changes the structural weighted sum. -/
theorem W_append_zero (l : List ℚ) : ∀ k : Nat, W k (l ++ [0]) = W k l := by
  induction l with
  | nil =>
    intro k
    cases k <;> simp [W, W_nil]
  | cons x t ih =>
    intro k
    cases k with
    | zero => rfl
    | succ k => simp [W, ih k]

/-- Key bound for the gain-sign analysis: for any list bounded above by
a nonnegative `h`, the discounted difference `W (k+1) s - 0.95 * W k s`
is at most `h`. -/
theorem W_sub_bound (s : List ℚ) : ∀ (k : Nat) (h : ℚ),
    (∀ x ∈ s, x ≤ h) → 0 ≤ h → W (k + 1) s - (0.95 : ℚ) * W k s ≤ h := by
  induction s with
  | nil =>
    intro k h _ h0
    simpa [W_nil] using h0
  | cons x t ih =>
    intro k h hb h0
    have hx : x ≤ h := hb x (List.mem_cons_self x t)
    have hbt : ∀ y ∈ t, y ≤ h := fun y hy => hb y (List.mem_cons_of_mem x hy)
    cases k with
    | zero =>
      simpa [W, W_nil] using hx
    | succ k =>
      have iht := ih k h hbt h0
      simp only [W_cons]
      linarith

theorem sortDesc_perm (l : List ℚ) : (sortDesc l).Perm l :=
  List.perm_insertionSort _ l

theorem sortDesc_sorted (l : List ℚ) :
    List.Sorted (fun a c => a ≥ c) (sortDesc l) :=
  List.sorted_insertionSort _ l

/-- A list already sorted descending is fixed by `sortDesc`. -/
theorem sortDesc_eq_of_sorted {l : List ℚ}
    (h : List.Sorted (fun a c => a ≥ c) l) : sortDesc l = l :=
  List.eq_of_perm_of_sorted (sortDesc_perm l) (sortDesc_sorted l) h

/-- Appending a value strictly above every element and re-sorting puts
that value in front. -/
theorem sortDesc_append_max {l : List ℚ} {v : ℚ} (h : ∀ x ∈ l, x < v) :
    sortDesc (l ++ [v]) = v :: sortDesc l := by
  apply List.eq_of_perm_of_sorted (r := fun a c => a ≥ c)
  · exact (sortDesc_perm (l ++ [v])).trans
      ((List.perm_append_singleton v l).trans ((sortDesc_perm l).symm.cons v))
  · exact sortDesc_sorted (l ++ [v])
  · refine List.sorted_cons.mpr ⟨?_, sortDesc_sorted l⟩
    intro c hc
    exact le_of_lt (h c ((sortDesc_perm l).mem_iff.mp hc))

/-- Appending a value below every element and re-sorting puts that
value at the back. -/
theorem sortDesc_append_min {l : List ℚ} {v : ℚ} (h : ∀ x ∈ l, v ≤ x) :
    sortDesc (l ++ [v]) = sortDesc l ++ [v] := by
  apply List.eq_of_perm_of_sorted (r := fun a c => a ≥ c)
  · exact (sortDesc_perm (l ++ [v])).trans
      ((sortDesc_perm l).symm.append_right [v])
  · exact sortDesc_sorted (l ++ [v])
  · refine List.pairwise_append.mpr
      ⟨sortDesc_sorted l, List.pairwise_singleton _ v, ?_⟩
    intro x hx y hy
    have hyv : y = v := by simpa using hy
    subst hyv
    exact h x ((sortDesc_perm l).mem_iff.mp hx)

/-- Bit membership in a left fold of bitwise ors over catalog entries. -/
theorem foldl_lor_testBit (l : List ModOptionDef) : ∀ (acc : Nat) (i : Nat),
    ((l.foldl (fun bits m => bits ||| m.bits) acc).testBit i = true) ↔
      (acc.testBit i = true ∨ ∃ m ∈ l, m.bits.testBit i = true) := by
  induction l with
  | nil => simp
  | cons m0 ms ih =>
    intro acc i
    simp only [List.foldl_cons, ih, Nat.testBit_lor, Bool.or_eq_true,
      List.mem_cons]
    constructor
    · rintro (h | ⟨m, hm, hb⟩)
      · rcases h with h | h
        · exact Or.inl h
        · exact Or.inr ⟨m0, Or.inl rfl, h⟩
      · exact Or.inr ⟨m, Or.inr hm, hb⟩
    · rintro (h | ⟨m, hm | hm, hb⟩)
      · exact Or.inl (Or.inl h)
      · subst hm
        exact Or.inl (Or.inr hb)
      · exact Or.inr ⟨m, hm, hb⟩

/-- Claim C4: mod resolution is order-insensitive — for every game mode,
permuting the selected acronyms leaves the `resolveMods` bitmask
unchanged. -/
theorem resolveMods_perm_invariant (mode : GameMode) {s1 s2 : List String}
    (h : s1.Perm s2) : resolveMods mode s1 = resolveMods mode s2 := by
  unfold resolveMods read_mods_for_mode
  have hW : ∀ m ∈ MODS_LAZER.filter (fun m => decide (mode ∈ m.modes)),
      decide (m.acronym ∈ s1) = decide (m.acronym ∈ s2) := by
    intro m _
    exact decide_eq_decide.mpr h.mem_iff
  rw [List.filter_congr hW]

/-- Witness for C4: swapping "HD" and "DT" in the osu!standard selection
gives the same bitmask. -/
theorem resolveMods_perm_invariant_witness :
    resolveMods .Osu ["HD", "DT"] = resolveMods .Osu ["DT", "HD"] :=
  resolveMods_perm_invariant .Osu (by decide)

/-- Claim C5: acronyms are unique within the catalog, and every bit set
in a resolved bitmask comes from a catalog entry applicable to the
active mode — entries whose `modes` exclude the mode never
contribute. -/
theorem resolveMods_mode_filtered :
    ((MODS_LAZER.map (fun m => m.acronym)).Nodup) ∧
    ∀ (mode : GameMode) (selected : List String) (i : Nat),
      (resolveMods mode selected).testBit i = true →
      ∃ m ∈ MODS_LAZER, mode ∈ m.modes ∧ m.bits.testBit i = true := by
  constructor
  · decide
  · intro mode selected i h
    unfold resolveMods read_mods_for_mode at h
    rw [foldl_lor_testBit] at h
    rcases h with h | ⟨m, hm, hb⟩
    · simp [Nat.zero_testBit] at h
    · rw [List.mem_filter] at hm
      rcases hm with ⟨hm, _⟩
      rw [List.mem_filter] at hm
      rcases hm with ⟨hmem, hmode⟩
      exact ⟨m, hmem, of_decide_eq_true hmode, hb⟩

/-- Witness for C5: bit 3 of the resolved "HD" selection for
osu!standard comes from a catalog entry applicable to osu!standard. -/
theorem resolveMods_mode_filtered_witness :
    ∃ m ∈ MODS_LAZER, GameMode.Osu ∈ m.modes ∧ m.bits.testBit 3 = true :=
  resolveMods_mode_filtered.2 .Osu ["HD"] 3 (by decide)

/-- Claim C8: mod resolution is idempotent in each acronym — selecting
an acronym twice equals selecting it once, and selecting Perfect
together with its base modifier Sudden Death (whose bit Perfect already
contains) equals selecting Perfect alone, for every mode. -/
theorem resolveMods_idempotent :
    (∀ (mode : GameMode) (a : String) (sel : List String),
        resolveMods mode (a :: a :: sel) = resolveMods mode (a :: sel)) ∧
    (∀ mode : GameMode,
        resolveMods mode ["PF", "SD"] = resolveMods mode ["PF"]) := by
  constructor
  · intro mode a sel
    unfold resolveMods read_mods_for_mode
    have hW : ∀ m ∈ MODS_LAZER.filter (fun m => decide (mode ∈ m.modes)),
        decide (m.acronym ∈ a :: a :: sel) = decide (m.acronym ∈ a :: sel) := by
      intro m _
      apply decide_eq_decide.mpr
      simp
    rw [List.filter_congr hW]
  · intro mode
    cases mode <;> decide

/-- Claim C2: for every game mode the Detailed judgement fields are
mapped onto the external calculator's slots by the fixed mode-keyed
table — Standard and Taiko counts map to their same-named slots; for
Catch, fruits go to `n300`, droplets to `large_tick_hits`, tiny
droplets to `small_tick_hits`, tiny droplet misses to `n_katu` and
misses to `misses`; for Mania, 320s go to `n_geki` and 200s to
`n_katu` — and the concrete Catch input
`(fruits 500, droplets 100, tiny droplets 50, tiny droplet misses 0,
misses 0)` yields exactly the slots
`(n300 500, large_tick_hits 100, small_tick_hits 50, n_katu 0,
misses 0)` with no other slot written. -/
theorem detailed_judgement_slot_mapping :
    (∀ (perf : Perf) (k300 k100 k50 km : Nat),
        (apply_detailed_judgements perf (.Osu k300 k100 k50 km)).n300 =
            some k300 ∧
        (apply_detailed_judgements perf (.Osu k300 k100 k50 km)).n100 =
            some k100 ∧
        (apply_detailed_judgements perf (.Osu k300 k100 k50 km)).n50 =
            some k50 ∧
        (apply_detailed_judgements perf (.Osu k300 k100 k50 km)).misses =
            some km) ∧
    (∀ (perf : Perf) (k300 k100 km : Nat),
        (apply_detailed_judgements perf (.Taiko k300 k100 km)).n300 =
            some k300 ∧
        (apply_detailed_judgements perf (.Taiko k300 k100 km)).n100 =
            some k100 ∧
        (apply_detailed_judgements perf (.Taiko k300 k100 km)).misses =
            some km) ∧
    (∀ (perf : Perf) (kf kd ktd ktdm km : Nat),
        (apply_detailed_judgements perf
            (.Catch kf kd ktd ktdm km)).n300 = some kf ∧
        (apply_detailed_judgements perf
            (.Catch kf kd ktd ktdm km)).large_tick_hits = some kd ∧
        (apply_detailed_judgements perf
            (.Catch kf kd ktd ktdm km)).small_tick_hits = some ktd ∧
        (apply_detailed_judgements perf
            (.Catch kf kd ktd ktdm km)).n_katu = some ktdm ∧
        (apply_detailed_judgements perf
            (.Catch kf kd ktd ktdm km)).misses = some km) ∧
    (∀ (perf : Perf) (k320 k300 k200 k100 k50 km : Nat),
        (apply_detailed_judgements perf
            (.Mania k320 k300 k200 k100 k50 km)).n_geki = some k320 ∧
        (apply_detailed_judgements perf
            (.Mania k320 k300 k200 k100 k50 km)).n300 = some k300 ∧
        (apply_detailed_judgements perf
            (.Mania k320 k300 k200 k100 k50 km)).n_katu = some k200 ∧
        (apply_detailed_judgements perf
            (.Mania k320 k300 k200 k100 k50 km)).n100 = some k100 ∧
        (apply_detailed_judgements perf
            (.Mania k320 k300 k200 k100 k50 km)).n50 = some k50 ∧
        (apply_detailed_judgements perf
            (.Mania k320 k300 k200 k100 k50 km)).misses = some km) ∧
    (apply_detailed_judgements emptyPerf (.Catch 500 100 50 0 0) =
      ⟨none, some 500, some 0, none, none, some 0, some 100, some 50⟩) := by
  refine ⟨?_, ?_, ?_, ?_, rfl⟩ <;>
    · intro perf
      obtain ⟨a1, a2, a3, a4, a5, a6, a7, a8⟩ := perf
      intros
      repeat' apply And.intro
      all_goals rfl

/-- Claim C9: the judgement normalizer returns exactly one active
variant — Simple input yields the accuracy-and-misses record with no
Detailed counts, Detailed input yields no accuracy and a Detailed
record whose shape matches the active game mode. -/
theorem judgement_normalizer_exclusive :
    (∀ (accuracy : ℚ) (misses : Nat) (combo : Option Nat),
        (read_simple_score accuracy misses combo).1 = some (accuracy, misses) ∧
        (read_simple_score accuracy misses combo).2.1 = combo ∧
        (read_simple_score accuracy misses combo).2.2 = none) ∧
    (∀ (mode : GameMode) (answers : List Nat) (combo : Option Nat)
        (out : AccuracyAndMisses × Option Nat × Option DetailedJudgements),
        read_detailed_judgements mode answers combo = some out →
        out.1 = none ∧ out.2.1 = combo ∧
        ∃ d, out.2.2 = some d ∧ shapeOf d = mode) := by
  constructor
  · intro accuracy misses combo
    exact ⟨rfl, rfl, rfl⟩
  · intro mode answers combo out h
    cases mode <;> simp only [read_detailed_judgements] at h <;> split at h <;>
      first
        | contradiction
        | (cases h; exact ⟨rfl, rfl, _, rfl, rfl⟩)

/-- Witness for C9: the Catch-mode answer sequence
`fruits 500, droplets 100, tiny droplets 50, tiny droplet misses 0,
misses 0` normalizes to no accuracy and a Catch-shaped Detailed
record. -/
theorem judgement_normalizer_exclusive_witness :
    ((none : AccuracyAndMisses), (none : Option Nat),
        some (DetailedJudgements.Catch 500 100 50 0 0)).1 = none ∧
    ((none : AccuracyAndMisses), (none : Option Nat),
        some (DetailedJudgements.Catch 500 100 50 0 0)).2.1 = none ∧
    ∃ d, ((none : AccuracyAndMisses), (none : Option Nat),
        some (DetailedJudgements.Catch 500 100 50 0 0)).2.2 = some d ∧
      shapeOf d = .Catch :=
  judgement_normalizer_exclusive.2 .Catch [500, 100, 50, 0, 0] none _ rfl

/-- Claim C1: the aggregation pipeline (descending sort followed by
`weighted_total_pp`) computes exactly the spec's reference value — for
any descending reordering `ref` of the input (ties in any order), the
result is the sum over the first at-most-100 ranks of the value at rank
`i` times `0.95 ^ i`, i.e. `weighted_total_pp ref`. -/
theorem weightedTotal_eq_sorted_reference :
    ∀ (pps ref : List ℚ), ref.Perm pps →
      List.Sorted (fun a c => a ≥ c) ref →
      weightedTotal pps = weighted_total_pp ref := by
  intro pps ref hperm hsort
  have href : ref = sortDesc pps :=
    List.eq_of_perm_of_sorted (hperm.trans (sortDesc_perm pps).symm) hsort
      (sortDesc_sorted pps)
  rw [weightedTotal, href]

/-- Witness for C1: the pipeline applied to the unsorted list
`250, 200, 150, 300` equals the reference computation on its descending
ordering `300, 250, 200, 150`. -/
theorem weightedTotal_eq_sorted_reference_witness :
    weightedTotal [250, 200, 150, 300] =
      weighted_total_pp [300, 250, 200, 150] :=
  weightedTotal_eq_sorted_reference [250, 200, 150, 300]
    [300, 250, 200, 150] (by decide) (by decide)

/-- Claim C6: the weighted total depends only on the top 100 elements —
appending values that rank at or beyond position 100 of a descending
sequence leaves the result unchanged, and with at most 100 entries all
of them are weighted (the full enumerated sum, no padding). -/
theorem weightedTotal_top100 :
    (∀ s t : List ℚ, List.Sorted (fun a c => a ≥ c) (s ++ t) →
        100 ≤ s.length → weightedTotal (s ++ t) = weightedTotal s) ∧
    (∀ s : List ℚ, List.Sorted (fun a c => a ≥ c) s → s.length ≤ 100 →
        weightedTotal s =
          (s.enum.map (fun p => p.2 * (0.95 : ℚ) ^ p.1)).sum) := by
  constructor
  · intro s t hsort hlen
    have hs : List.Sorted (fun a c => a ≥ c) s :=
      List.Pairwise.sublist (List.sublist_append_left s t) hsort
    rw [weightedTotal, sortDesc_eq_of_sorted hsort, weightedTotal,
      sortDesc_eq_of_sorted hs, weighted_total_pp, weighted_total_pp,
      List.take_append_of_le_length hlen]
  · intro s hsort hlen
    rw [weightedTotal, sortDesc_eq_of_sorted hsort, weighted_total_pp,
      List.take_of_length_le hlen]

/-- Witness for C6: appending a `0` after one hundred equal entries
leaves the total unchanged, and a three-entry list is summed in
full. -/
theorem weightedTotal_top100_witness :
    weightedTotal (List.replicate 100 (1 : ℚ) ++ [0]) =
        weightedTotal (List.replicate 100 (1 : ℚ)) ∧
    weightedTotal [3, 2, 1] =
        (([3, 2, 1] : List ℚ).enum.map
          (fun p => p.2 * (0.95 : ℚ) ^ p.1)).sum := by
  constructor
  · apply weightedTotal_top100.1
    · refine List.pairwise_append.mpr
        ⟨List.pairwise_replicate.mpr (Or.inr (le_refl 1)),
         List.pairwise_singleton _ _, ?_⟩
      intro x hx y hy
      have hx1 : x = 1 := List.eq_of_mem_replicate hx
      have hy0 : y = 0 := by simpa using hy
      rw [hx1, hy0]
      norm_num
    · simp
  · apply weightedTotal_top100.2
    · decide
    · decide

/-- Claim C7: the empty historical list aggregates to `0`, and
inserting a single play of value `v` into the empty list yields total
`v` and gain `v` (rank 0, weight `1`); in particular for `v = 100` the
old total is `0`, the new total is `100` and the gain is `100`. -/
theorem weightedTotal_empty_list :
    weightedTotal ([] : List ℚ) = 0 ∧
    (∀ v : ℚ, weightedTotal [v] = v ∧ gain [] v = v) ∧
    (weightedTotal [(100 : ℚ)] = 100 ∧ gain ([] : List ℚ) 100 = 100) := by
  have h0 : weightedTotal ([] : List ℚ) = 0 := rfl
  have h1 : ∀ v : ℚ, weightedTotal [v] = v := by
    intro v
    have hs : sortDesc [v] = [v] := rfl
    rw [weightedTotal, hs, weighted_total_pp_eq_W]
    have e1 : W 100 [v] = v + (0.95 : ℚ) * W 99 [] := rfl
    rw [e1, W_nil]
    ring
  have h2 : ∀ v : ℚ, gain [] v = v := by
    intro v
    have e : ([] : List ℚ) ++ [v] = [v] := rfl
    rw [gain, e, h1 v, h0]
    ring
  exact ⟨h0, fun v => ⟨h1 v, h2 v⟩, h1 100, h2 100⟩

/-- Counterexample to claim C3 as stated.  First part: for the
historical list `-100` and new value `-99` (strictly above the list's
maximum) the gain is negative, not positive.  Second part: inserting
`0` into the non-empty positive list `1` places `0` at rank 1, well
before position 100, yet the gain is exactly `0` — so equality does
not hold "only when 0 would rank at or beyond position 100". -/
theorem gain_sign_counterexample :
    ((∀ x ∈ ([-100] : List ℚ), x < -99) ∧ gain [-100] (-99) < 0) ∧
    ((∀ x ∈ ([1] : List ℚ), 0 < x) ∧
      sortDesc ([1] ++ [0]) = [1, 0] ∧ (1 : Nat) < 100 ∧
      gain [1] 0 = 0) := by
  have hmax : ∀ x ∈ ([-100] : List ℚ), x < (-99 : ℚ) := by decide
  have hpos : ∀ x ∈ ([1] : List ℚ), (0 : ℚ) < x := by decide
  have h0le : ∀ x ∈ ([1] : List ℚ), (0 : ℚ) ≤ x := by decide
  have hs1 : sortDesc ([-100] ++ [-99]) = [(-99 : ℚ), -100] := by
    rw [sortDesc_append_max hmax]
    rfl
  have hs2 : sortDesc ([1] ++ [0]) = [(1 : ℚ), 0] := by
    rw [sortDesc_append_min h0le]
    rfl
  have e1 : gain [-100] (-99) < 0 := by
    rw [gain, weightedTotal, weightedTotal, hs1, weighted_total_pp_eq_W,
      weighted_total_pp_eq_W]
    have w1 : W 100 [(-99 : ℚ), -100] =
        -99 + (0.95 : ℚ) * (-100 + (0.95 : ℚ) * W 98 []) := rfl
    have w2 : W 100 (sortDesc [(-100 : ℚ)]) =
        -100 + (0.95 : ℚ) * W 99 [] := rfl
    rw [w1, w2, W_nil, W_nil]
    norm_num
  have e2 : gain [1] 0 = 0 := by
    rw [gain, weightedTotal, weightedTotal, hs2, weighted_total_pp_eq_W,
      weighted_total_pp_eq_W]
    have w1 : W 100 [(1 : ℚ), 0] =
        1 + (0.95 : ℚ) * (0 + (0.95 : ℚ) * W 98 []) := rfl
    have w2 : W 100 (sortDesc [(1 : ℚ)]) = 1 + (0.95 : ℚ) * W 99 [] := rfl
    rw [w1, w2, W_nil, W_nil]
    norm_num
  exact ⟨⟨hmax, e1⟩, hpos, hs2, by decide, e2⟩

/-- Claim C3 as amended by the counterexample: (1) if the new value is
strictly greater than every element of a non-empty list whose maximum
is nonnegative (PP values are nonnegative), the gain is strictly
positive; (2) inserting `0` into a non-empty list of positive values
gives gain exactly `0` (hence nonnegative), at every rank. -/
theorem gain_sign_amended :
    (∀ (pps : List ℚ) (v : ℚ), pps ≠ [] → (∀ x ∈ pps, x < v) →
        (∃ x ∈ pps, 0 ≤ x) → 0 < gain pps v) ∧
    (∀ pps : List ℚ, pps ≠ [] → (∀ x ∈ pps, 0 < x) → gain pps 0 = 0) := by
  constructor
  · intro pps v hne hlt hex
    obtain ⟨x0, hx0m, hx00⟩ := hex
    have hsperm := sortDesc_perm pps
    have hssort := sortDesc_sorted pps
    obtain ⟨y, t, hyt⟩ : ∃ y t, sortDesc pps = y :: t := by
      cases hs : sortDesc pps with
      | nil =>
        rw [hs] at hsperm
        exact absurd hsperm.symm.eq_nil hne
      | cons y t => exact ⟨y, t, rfl⟩
    have hhead : ∀ z ∈ sortDesc pps, z ≤ y := by
      intro z hz
      rw [hyt] at hz hssort
      rcases List.mem_cons.mp hz with hz | hz
      · exact le_of_eq hz
      · exact List.rel_of_sorted_cons hssort z hz
    have hy0 : 0 ≤ y :=
      le_trans hx00 (hhead x0 (hsperm.mem_iff.mpr hx0m))
    have hyv : y < v := by
      have hymem : y ∈ pps := hsperm.mem_iff.mp (by rw [hyt]; simp)
      exact hlt y hymem
    have hbound := W_sub_bound (sortDesc pps) 99 y hhead hy0
    rw [gain, weightedTotal, weightedTotal, sortDesc_append_max hlt,
      weighted_total_pp_eq_W, weighted_total_pp_eq_W]
    have e1 : W 100 (v :: sortDesc pps) =
        v + (0.95 : ℚ) * W 99 (sortDesc pps) := rfl
    rw [e1]
    have e2 : (99 : Nat) + 1 = 100 := rfl
    rw [e2] at hbound
    linarith
  · intro pps hne hpos
    have h0 : ∀ x ∈ pps, (0 : ℚ) ≤ x := fun x hx => le_of_lt (hpos x hx)
    rw [gain, weightedTotal, weightedTotal, sortDesc_append_min h0,
      weighted_total_pp_eq_W, weighted_total_pp_eq_W, W_append_zero]
    ring

/-- Witness for the amended C3 on the spec's scenario list
`250, 200, 150`: inserting `300` gains strictly, inserting `0` gains
exactly nothing. -/
theorem gain_sign_amended_witness :
    0 < gain [250, 200, 150] 300 ∧ gain [250, 200, 150] 0 = 0 :=
  ⟨gain_sign_amended.1 [250, 200, 150] 300 (by decide) (by decide)
      (by decide),
    gain_sign_amended.2 [250, 200, 150] (by decide) (by decide)⟩

/-- Inserting a numeric value into a NaN-free sorted prefix succeeds
and yields a non-empty NaN-free prefix. -/
theorem insertFlt_ok (x : Flt) (hx : x ≠ none) :
    ∀ acc : List Flt, (∀ y ∈ acc, y ≠ none) →
      ∃ r, insertFlt x acc = .ok r ∧ (∀ y ∈ r, y ≠ none) ∧ r ≠ [] := by
  obtain ⟨a, rfl⟩ : ∃ a, x = some a := by
    cases x with
    | none => exact absurd rfl hx
    | some a => exact ⟨a, rfl⟩
  intro acc
  induction acc with
  | nil =>
    intro _
    refine ⟨[some a], rfl, ?_, by simp⟩
    intro y hy
    simp only [List.mem_singleton] at hy
    simp [hy]
  | cons y ys ih =>
    intro hacc
    have hy : y ≠ none := hacc y (List.mem_cons_self y ys)
    obtain ⟨c, rfl⟩ : ∃ c, y = some c := by
      cases y with
      | none => exact absurd rfl hy
      | some c => exact ⟨c, rfl⟩
    have hys : ∀ z ∈ ys, z ≠ none :=
      fun z hz => hacc z (List.mem_cons_of_mem _ hz)
    cases hc : compare a c with
    | gt =>
      refine ⟨some a :: some c :: ys, ?_, ?_, by simp⟩
      · simp [insertFlt, pcmp, hc]
      · intro z hz
        rcases List.mem_cons.mp hz with hz | hz
        · simp [hz]
        · exact hacc z hz
    | lt =>
      obtain ⟨r, hr, hrne, _⟩ := ih hys
      refine ⟨some c :: r, ?_, ?_, by simp⟩
      · simp [insertFlt, pcmp, hc, hr, Except.map]
      · intro z hz
        rcases List.mem_cons.mp hz with hz | hz
        · simp [hz]
        · exact hrne z hz
    | eq =>
      obtain ⟨r, hr, hrne, _⟩ := ih hys
      refine ⟨some c :: r, ?_, ?_, by simp⟩
      · simp [insertFlt, pcmp, hc, hr, Except.map]
      · intro z hz
        rcases List.mem_cons.mp hz with hz | hz
        · simp [hz]
        · exact hrne z hz

/-- Sorting a NaN-free remainder from a NaN-free prefix succeeds. -/
theorem sortFltGo_ok : ∀ (xs acc : List Flt),
    (∀ y ∈ acc, y ≠ none) → (∀ x ∈ xs, x ≠ none) →
      ∃ r, sortFltGo acc xs = .ok r := by
  intro xs
  induction xs with
  | nil =>
    intro acc _ _
    exact ⟨acc, rfl⟩
  | cons x xs ih =>
    intro acc hacc hxs
    have hx : x ≠ none := hxs x (List.mem_cons_self x xs)
    obtain ⟨r, hr, hrne, _⟩ := insertFlt_ok x hx acc hacc
    obtain ⟨out, hout⟩ :=
      ih r hrne (fun z hz => hxs z (List.mem_cons_of_mem _ hz))
    exact ⟨out, by simp [sortFltGo, hr, hout]⟩

/-- If the prefix is non-empty and NaN-free and a NaN remains to be
inserted, the sort panics. -/
theorem sortFltGo_err : ∀ (xs acc : List Flt), acc ≠ [] →
    (∀ y ∈ acc, y ≠ none) → none ∈ xs → sortFltGo acc xs = .error () := by
  intro xs
  induction xs with
  | nil =>
    intro acc _ _ h
    simp at h
  | cons x xs ih =>
    intro acc hne hacc hmem
    by_cases hx : x = none
    · subst hx
      obtain ⟨z, zs, rfl⟩ : ∃ z zs, acc = z :: zs := by
        cases acc with
        | nil => exact absurd rfl hne
        | cons z zs => exact ⟨z, zs, rfl⟩
      simp [sortFltGo, insertFlt, pcmp]
    · have hmem' : none ∈ xs := by
        rcases List.mem_cons.mp hmem with h | h
        · exact absurd h.symm hx
        · exact h
      obtain ⟨r, hr, hrne, hrnil⟩ := insertFlt_ok x hx acc hacc
      simp only [sortFltGo, hr]
      exact ih r hrnil hrne hmem'

/-- The NaN-free weighted sum over a take-prefix enumerated from `n`
is numeric and agrees with the exact rational computation. -/
theorem wfp_bridge (l : List ℚ) : ∀ (k n : Nat),
    ((((l.map some).take k).enumFrom n).map
        (fun p => fmul p.2 (some ((0.95 : ℚ) ^ p.1)))).foldr fadd (some 0) =
      some ((((l.take k).enumFrom n).map
        (fun p => p.2 * (0.95 : ℚ) ^ p.1)).sum) := by
  induction l with
  | nil =>
    intro k n
    cases k <;> simp
  | cons x t ih =>
    intro k n
    cases k with
    | zero => simp
    | succ k =>
      simp only [List.map_cons, List.take_succ_cons, List.enumFrom_cons,
        List.foldr_cons, List.sum_cons, ih k (n + 1)]
      rfl

/-- Counterexample to claim C10 as stated: the singleton list holding
one NaN does contain a NaN entry, yet the sort performs no comparison
at all, so no `unwrap` panics and the sort completes. -/
theorem sort_nan_counterexample :
    (none ∈ ([none] : List Flt)) ∧
    sortFlt ([none] : List Flt) = .ok [none] ∧
    sortFlt ([none] : List Flt) ≠ .error () := by
  exact ⟨by simp, rfl, fun h => Except.noConfusion h⟩

/-- Claim C10 as amended by the counterexample: every NaN-free list is
sorted without panic; any comparison involving a NaN returns `None` so
its `unwrap` panics, hence a NaN entry in a list of at least two
elements makes the sort panic, while a one-element list performs no
comparison and completes even if its entry is NaN; `weighted_total_pp`
itself is total, and on NaN-free input it returns the numeric weighted
total. -/
theorem sort_nan_panic :
    (∀ l : List Flt, (∀ x ∈ l, x ≠ none) → ∃ r, sortFlt l = .ok r) ∧
    (∀ x : Flt, pcmp x none = none ∧ pcmp none x = none) ∧
    (∀ l : List Flt, 2 ≤ l.length → none ∈ l → sortFlt l = .error ()) ∧
    (∀ x : Flt, sortFlt [x] = .ok [x]) ∧
    (∀ l : List ℚ, weighted_total_pp_f (l.map some) =
        some (weighted_total_pp l)) := by
  refine ⟨?_, ?_, ?_, ?_, ?_⟩
  · intro l hl
    exact sortFltGo_ok l [] (by simp) hl
  · intro x
    cases x <;> exact ⟨rfl, rfl⟩
  · intro l hlen hmem
    obtain ⟨x, xs, rfl⟩ : ∃ x xs, l = x :: xs := by
      cases l with
      | nil => simp at hlen
      | cons x xs => exact ⟨x, xs, rfl⟩
    obtain ⟨y, ys, rfl⟩ : ∃ y ys, xs = y :: ys := by
      cases xs with
      | nil => simp at hlen
      | cons y ys => exact ⟨y, ys, rfl⟩
    by_cases hx : x = none
    · subst hx
      cases y <;> simp [sortFlt, sortFltGo, insertFlt, pcmp]
    · have hmem' : none ∈ y :: ys := by
        rcases List.mem_cons.mp hmem with h | h
        · exact absurd h.symm hx
        · exact h
      have h1 : sortFlt (x :: y :: ys) = sortFltGo [x] (y :: ys) := by
        simp [sortFlt, sortFltGo, insertFlt]
      rw [h1]
      refine sortFltGo_err (y :: ys) [x] (by simp) ?_ hmem'
      intro z hz
      simp only [List.mem_singleton] at hz
      rw [hz]
      exact hx
  · intro x
    rfl
  · intro l
    have h := wfp_bridge l 100 0
    simpa [weighted_total_pp_f, weighted_total_pp,
      List.enum_eq_enumFrom] using h

/-- Witness for the amended C10: the NaN-free list `2, 1` sorts
without panic, and the three-element list `1, NaN, 2` panics. -/
theorem sort_nan_panic_witness :
    (∃ r, sortFlt [some 2, some 1] = .ok r) ∧
    sortFlt [some 1, none, some 2] = .error () ∧
    sortFlt [(none : Flt)] = .ok [none] ∧
    weighted_total_pp_f ([(3 : ℚ), 2].map some) =
      some (weighted_total_pp [(3 : ℚ), 2]) :=
  ⟨sort_nan_panic.1 [some 2, some 1] (by decide),
    sort_nan_panic.2.2.1 [some 1, none, some 2] (by decide) (by decide),
    sort_nan_panic.2.2.2.1 none,
    sort_nan_panic.2.2.2.2 [3, 2]⟩
